import Mathlib

/-!
Verification of the leaderboard engine of mars-api-rs.

This file gives a shallow embedding of the leaderboard core
(`src/socket/leaderboard/mod.rs` and `src/socket/leaderboard/leaderboard_new.rs`)
and proves properties about it.

Modelling conventions:
* Rust `u32` values are represented as `Nat`; where the source's `u32`
  arithmetic can overflow the embedding applies `% 2 ^ 32` explicitly
  (Rust release builds wrap; debug builds panic on overflow).
* Calendar datetimes (`chrono::DateTime<FixedOffset>` at the fixed UTC-4
  offset) are represented by their broken-down local fields
  (struct `LBDateTime` below); two datetimes with the same fixed offset
  compare exactly like their local fields, and every calendar operation
  used by the source acts on local fields.
* Millisecond epoch timestamps (`get_u64_time_millis`) are `Nat`.
* Fallible or panicking paths are made explicit with `Option` and the
  `CallOutcome` type.
-/

/-- `Season` from `src/socket/leaderboard/mod.rs`. -/
inductive Season where
  | Spring
  | Summer
  | Autumn
  | Winter
deriving DecidableEq

/-- `chrono::Month`; the source converts month numbers with
`Month::from_u32` (always succeeds for the 1-12 month numbers produced by
`Datelike::month`), so the embedding stores months in this enum directly. -/
inductive Month where
  | January
  | February
  | March
  | April
  | May
  | June
  | July
  | August
  | September
  | October
  | November
  | December
deriving DecidableEq

/-- `Month::number_from_month` (1-based month number). -/
def Month.number : Month → Nat
  | .January => 1
  | .February => 2
  | .March => 3
  | .April => 4
  | .May => 5
  | .June => 6
  | .July => 7
  | .August => 8
  | .September => 9
  | .October => 10
  | .November => 11
  | .December => 12

/-- The month following a given month (used for `+ Months::new(1)`). -/
def Month.succMonth : Month → Month
  | .January => .February
  | .February => .March
  | .March => .April
  | .April => .May
  | .May => .June
  | .June => .July
  | .July => .August
  | .August => .September
  | .September => .October
  | .October => .November
  | .November => .December
  | .December => .January

/-- Inverse of `Month.number` (for `civil_from_days`-style reconstruction);
out-of-range numbers (which cannot arise) map to January. -/
def Month.ofNumber : Nat → Month
  | 1 => .January
  | 2 => .February
  | 3 => .March
  | 4 => .April
  | 5 => .May
  | 6 => .June
  | 7 => .July
  | 8 => .August
  | 9 => .September
  | 10 => .October
  | 11 => .November
  | 12 => .December
  | _ => .January

/-- `Season::of_northern` — note it maps a whole *month* to a season. -/
def Season.of_northern : Month → Season
  | .March | .April => .Spring
  | .May | .June | .July | .August => .Summer
  | .September | .October => .Autumn
  | .November | .December | .January | .February => .Winter

/-- `Season::get_northern_season_start` — `(month, day)` of the season start. -/
def Season.get_northern_season_start : Season → Month × Nat
  | .Spring => (.March, 20)
  | .Summer => (.June, 20)
  | .Autumn => (.September, 22)
  | .Winter => (.December, 21)

/-- `Season::next`. -/
def Season.next : Season → Season
  | .Spring => .Summer
  | .Summer => .Autumn
  | .Autumn => .Winter
  | .Winter => .Spring

/-- `ScoreType` from `src/socket/leaderboard/mod.rs`. -/
inductive ScoreType where
  | Kills
  | Deaths
  | FirstBloods
  | Wins
  | Losses
  | Ties
  | Xp
  | MessagesSent
  | MatchesPlayed
  | ServerPlaytime
  | GamePlaytime
  | CoreLeaks
  | CoreBlockDestroys
  | DestroyableDestroys
  | DestroyableBlockDestroys
  | FlagCaptures
  | FlagDrops
  | FlagPickups
  | FlagDefends
  | FlagHoldTime
  | WoolCaptures
  | WoolDrops
  | WoolPickups
  | WoolDefends
  | ControlPointCaptures
  | HighestKillstreak
deriving DecidableEq

/-- `ScoreTypeAggregation`. -/
inductive ScoreTypeAggregation where
  | Sum
  | Max
deriving DecidableEq

/-- `ScoreTypeAggregation::is_delta_useless`: a delta of 0 is useless. -/
def ScoreTypeAggregation.is_delta_useless (_agg : ScoreTypeAggregation) (delta : Nat) : Bool :=
  if delta = 0 then true else false

/-- `ScoreTypeAggregation::compare` (the merge function).  The source computes
`old + new` on `u32`, which wraps modulo `2 ^ 32` in release builds (and
panics under debug assertions); the wrap is made explicit here.  `Max` is
`u32::max`. -/
def ScoreTypeAggregation.compare (agg : ScoreTypeAggregation) (old new : Nat) : Nat :=
  match agg with
  | .Sum => (old + new) % 2 ^ 32
  | .Max => Nat.max old new

/-- `ScoreType::get_aggregation_type`: everything is `Sum` except
`HighestKillstreak`, which is `Max`. -/
def ScoreType.get_aggregation_type : ScoreType → ScoreTypeAggregation
  | .HighestKillstreak => .Max
  | _ => .Sum

/-- The spec's proposed merge for `Sum`: saturating addition at `u32::MAX`
("Sum → old + new (saturating at u32::MAX)").  Stated from the spec's words,
for comparison against the source's `ScoreTypeAggregation.compare`. -/
def merge_saturating_spec (old new : Nat) : Nat :=
  min (old + new) (2 ^ 32 - 1)

/-- C4 counterexample: the source's `Sum` merge is not saturating addition.
At `old = new = 2 ^ 31` the source's u32 addition wraps to `0`, while the
claimed saturating merge yields `u32::MAX`. -/
theorem compare_sum_not_saturating :
    ScoreTypeAggregation.compare .Sum (2 ^ 31) (2 ^ 31) = 0 ∧
    merge_saturating_spec (2 ^ 31) (2 ^ 31) = 2 ^ 32 - 1 ∧
    ScoreTypeAggregation.compare .Sum (2 ^ 31) (2 ^ 31) ≠
      merge_saturating_spec (2 ^ 31) (2 ^ 31) := by
  refine ⟨by decide, by decide, by decide⟩

/-- C4 (amended): for in-range `u32` operands, `merge(Sum, old, new)` is
`old + new` when the sum fits in a `u32` and `old + new - 2 ^ 32`
(wrap-around; a panic under debug assertions) when it does not — it never
saturates; `merge(Max, old, new)` is `max old new`. -/
theorem compare_wrapping (old new : Nat) (ho : old < 2 ^ 32) (hn : new < 2 ^ 32) :
    (old + new < 2 ^ 32 → ScoreTypeAggregation.compare .Sum old new = old + new) ∧
    (2 ^ 32 ≤ old + new → ScoreTypeAggregation.compare .Sum old new = old + new - 2 ^ 32) ∧
    ScoreTypeAggregation.compare .Max old new = Nat.max old new := by
  refine ⟨fun h => ?_, fun h => ?_, rfl⟩
  · simpa [ScoreTypeAggregation.compare] using Nat.mod_eq_of_lt h
  · have hlt : old + new - 2 ^ 32 < 2 ^ 32 := by omega
    simp only [ScoreTypeAggregation.compare]
    rw [Nat.mod_eq_sub_mod h, Nat.mod_eq_of_lt hlt]

/-- C4 witness: `compare_wrapping` applied at concrete operands. -/
theorem compare_wrapping_witness :
    ((1 : Nat) < 2 ^ 32 ∧ (2 : Nat) < 2 ^ 32) ∧
    ((1 + 2 < 2 ^ 32 → ScoreTypeAggregation.compare .Sum 1 2 = 1 + 2) ∧
     (2 ^ 32 ≤ 1 + 2 → ScoreTypeAggregation.compare .Sum 1 2 = 1 + 2 - 2 ^ 32) ∧
     ScoreTypeAggregation.compare .Max 1 2 = Nat.max 1 2) :=
  ⟨⟨by decide, by decide⟩, compare_wrapping 1 2 (by decide) (by decide)⟩

/-- A `chrono::NaiveDate` (the local date of a `DateTime<FixedOffset>` at
the engine's fixed UTC-4 offset). -/
structure LBDate where
  year : Int
  month : Month
  day : Nat
deriving DecidableEq

/-- A `chrono::DateTime<FixedOffset>` at the fixed UTC-4 offset, broken
down into its local fields (sub-second precision is never consulted by the
leaderboard calendar code). -/
structure LBDateTime where
  date : LBDate
  hour : Nat
  minute : Nat
  second : Nat
deriving DecidableEq

/-- Days since 1970-01-01 of a civil date (Howard Hinnant's
`days_from_civil`, the algorithm underlying chrono's day arithmetic). -/
def LBDate.toRataDie (d : LBDate) : Int :=
  let y : Int := if d.month.number ≤ 2 then d.year - 1 else d.year
  let era : Int := Int.fdiv y 400
  let yoe : Int := y - era * 400
  let mp : Int := Int.emod ((d.month.number : Int) + 9) 12
  let doy : Int := Int.fdiv (153 * mp + 2) 5 + ((d.day : Int) - 1)
  let doe : Int := yoe * 365 + Int.fdiv yoe 4 - Int.fdiv yoe 100 + doy
  era * 146097 + doe - 719468

/-- Civil date from days since 1970-01-01 (Hinnant's `civil_from_days`). -/
def LBDate.fromRataDie (z0 : Int) : LBDate :=
  let z := z0 + 719468
  let era := Int.fdiv z 146097
  let doe := z - era * 146097
  let yoe := Int.fdiv (doe - Int.fdiv doe 1460 + Int.fdiv doe 36524 - Int.fdiv doe 146096) 365
  let y := yoe + era * 400
  let doy := doe - (365 * yoe + Int.fdiv yoe 4 - Int.fdiv yoe 100)
  let mp := Int.fdiv (5 * doy + 2) 153
  let d := doy - Int.fdiv (153 * mp + 2) 5 + 1
  let m := if mp < 10 then mp + 3 else mp - 9
  ⟨if m ≤ 2 then y + 1 else y, Month.ofNumber m.toNat, d.toNat⟩

/-- `chrono::Datelike::weekday().num_days_from_sunday()`:
1970-01-01 was a Thursday (4 days from Sunday). -/
def LBDate.num_days_from_sunday (d : LBDate) : Nat :=
  (Int.emod (d.toRataDie + 4) 7).toNat

/-- `date_time - Days::new(n)`: shifts the date back `n` days, keeping the
time of day. -/
def LBDateTime.subDays (dt : LBDateTime) (n : Nat) : LBDateTime :=
  { dt with date := LBDate.fromRataDie (dt.date.toRataDie - n) }

/-- `date_time + Days::new(n)`. -/
def LBDateTime.addDays (dt : LBDateTime) (n : Nat) : LBDateTime :=
  { dt with date := LBDate.fromRataDie (dt.date.toRataDie + n) }

/-- `date_time.with_time(NaiveTime::MIN)`: midnight of the same date. -/
def LBDateTime.withMinTime (dt : LBDateTime) : LBDateTime :=
  { dt with hour := 0, minute := 0, second := 0 }

/-- Gregorian leap-year test (chrono's calendar). -/
def isLeapYear (y : Int) : Bool :=
  decide (y % 4 = 0 ∧ (y % 100 ≠ 0 ∨ y % 400 = 0))

/-- Number of days in a month of a given year. -/
def daysInMonth (y : Int) (m : Month) : Nat :=
  match m with
  | .February => if isLeapYear y then 29 else 28
  | .April | .June | .September | .November => 30
  | _ => 31

/-- `date_time + Months::new(1)`: chrono advances the month, clamping the
day of month to the target month's length, and keeps the time of day. -/
def LBDateTime.addOneMonth (dt : LBDateTime) : LBDateTime :=
  let yM : Int × Month :=
    if dt.date.month = .December then (dt.date.year + 1, .January)
    else (dt.date.year, dt.date.month.succMonth)
  { dt with date := ⟨yM.1, yM.2, min dt.date.day (daysInMonth yM.1 yM.2)⟩ }

/-- `NaiveDate` strict ordering (lexicographic on year, month, day), as
used by the `<` comparisons in `Season::get_season`. -/
def LBDate.lt (a b : LBDate) : Bool :=
  decide (a.year < b.year ∨
    (a.year = b.year ∧ (a.month.number < b.month.number ∨
      (a.month.number = b.month.number ∧ a.day < b.day))))

/-- `Season::get_season`: day-precise season of a date, comparing against
the season-start dates of the date's own year. -/
def Season.get_season (date : LBDate) : Season :=
  let szn_as_date := fun (szn : Season) =>
    let szn_start := szn.get_northern_season_start
    (⟨date.year, szn_start.1, szn_start.2⟩ : LBDate)
  if LBDate.lt date (szn_as_date .Spring) then .Winter
  else if LBDate.lt date (szn_as_date .Summer) then .Spring
  else if LBDate.lt date (szn_as_date .Autumn) then .Summer
  else if LBDate.lt date (szn_as_date .Winter) then .Autumn
  else .Winter

/-- `LeaderboardPeriod`. -/
inductive LeaderboardPeriod where
  | Daily
  | Weekly
  | Monthly
  | Seasonally
  | Yearly
  | AllTime
deriving DecidableEq

/-- `LeaderboardPeriod::get_most_granular_period`. -/
def LeaderboardPeriod.get_most_granular_period : LeaderboardPeriod := .Daily

/-- `LeaderboardPeriod::are_datetimes_disjoint`: whether two instants fall
in different buckets of the period.  Note the `Seasonally` arm compares
`Season::of_northern` of the two *months* only. -/
def LeaderboardPeriod.are_datetimes_disjoint
    (period : LeaderboardPeriod) (date1 date2 : LBDateTime) : Bool :=
  match period with
  | .Daily => decide (date1.date ≠ date2.date)
  | .Weekly =>
      decide ((date1.subDays date1.date.num_days_from_sunday).date ≠
              (date2.subDays date2.date.num_days_from_sunday).date)
  | .Monthly => decide (date1.date.year ≠ date2.date.year ∨ date1.date.month ≠ date2.date.month)
  | .Seasonally => decide (Season.of_northern date1.date.month ≠ Season.of_northern date2.date.month)
  | .Yearly => decide (date1.date.year ≠ date2.date.year)
  | .AllTime => false

/-- `LeaderboardPeriod::get_full_date_range`: the `(Option start, end)`
query range of the bucket containing `date_time`.  The `Monthly` arm is a
faithful rendering of the source: `with_day0(0)` only changes the day of
month (the time of day is kept), and the upper bound is
`date_time + Months::new(1)`. -/
def LeaderboardPeriod.get_full_date_range
    (period : LeaderboardPeriod) (date_time : LBDateTime) :
    Option LBDateTime × LBDateTime :=
  match period with
  | .Daily =>
      let midnight := date_time.withMinTime
      let tmrw_midnight := midnight.addDays 1
      (some midnight, tmrw_midnight)
  | .Weekly =>
      let week_start := (date_time.subDays date_time.date.num_days_from_sunday).withMinTime
      let week_end := week_start.addDays 7
      (some week_start, week_end)
  | .Monthly =>
      let month_start := { date_time with date := { date_time.date with day := 1 } }
      let month_end := date_time.addOneMonth
      (some month_start, month_end)
  | .Seasonally =>
      let current_season := Season.get_season date_time.date
      let szn_to_nd := fun (szn : Season) =>
        let ms := szn.get_northern_season_start
        let season_year : Int :=
          if ms.1.number > date_time.date.month.number ∨
             (ms.1.number = date_time.date.month.number ∧ ms.2 > date_time.date.day)
          then date_time.date.year - 1 else date_time.date.year
        (⟨season_year, ms.1, ms.2⟩ : LBDate)
      let season_start := szn_to_nd current_season
      let season_end := szn_to_nd current_season.next
      (some ⟨season_start, 0, 0, 0⟩, ⟨season_end, 0, 0, 0⟩)
  | .Yearly =>
      let b := ({ date_time with date := ⟨date_time.date.year, .January, 1⟩ } : LBDateTime).withMinTime
      (some b, { b with date := { b.date with year := b.date.year + 1 } })
  | .AllTime => (none, date_time)

/-- The `cache_needs_updating` decision at the top of
`LeaderboardV2::fetch_top` (leaderboard_new.rs lines 275-299): reconstruct
when the period has no metadata entry, or `last_updated` is `None`, or the
last update and now are in disjoint buckets, or (only consulted otherwise)
the view key is absent from the cache.  `has_key_result` is the raw
`has_key` outcome; the source applies `unwrap_or(false)` to it. -/
def cache_needs_updating (period : LeaderboardPeriod)
    (metadata : Option (Option LBDateTime)) (now : LBDateTime)
    (has_key_result : Option Bool) : Bool :=
  match metadata with
  | some lvm =>
      match lvm with
      | none => true
      | some last_update_date =>
          if period.are_datetimes_disjoint last_update_date now then true
          else !(has_key_result.getD false)
  | none => true

/-- C7: `fetch_top` decides to reconstruct iff the metadata entry is
absent, or its `last_updated` is `None`, or `last_updated` and now are
bucket-disjoint for the period, or the view key does not exist in the
cache (a `has_key` error counts as non-existence via `unwrap_or(false)`);
in particular an externally deleted key always forces reconstruction. -/
theorem cache_needs_updating_iff (period : LeaderboardPeriod)
    (md : Option (Option LBDateTime)) (now : LBDateTime) (hk : Option Bool) :
    (cache_needs_updating period md now hk = true ↔
      (md = none ∨ md = some none ∨
       (∃ lu, md = some (some lu) ∧ period.are_datetimes_disjoint lu now = true) ∨
       hk.getD false = false)) ∧
    cache_needs_updating period md now (some false) = true := by
  constructor
  · match md with
    | none => simp [cache_needs_updating]
    | some none => simp [cache_needs_updating]
    | some (some lu) =>
        by_cases hdis : period.are_datetimes_disjoint lu now = true <;>
          cases hk with
          | none => simp_all [cache_needs_updating]
          | some b => cases b <;> simp_all [cache_needs_updating]
  · match md with
    | none => rfl
    | some none => rfl
    | some (some lu) =>
        simp only [cache_needs_updating]
        by_cases hdis : period.are_datetimes_disjoint lu now = true <;> simp [hdis]

/-- C2 counterexample: 2025-03-19 23:59 and 2025-03-20 00:01 (UTC-4) are
*not* in disjoint `Seasonally` buckets under the source's check — both
instants are in March and `Season::of_northern(March) = Spring` — so
`sameBucket(Seasonally, a, b)` (`!are_datetimes_disjoint`) is true, not
false as claimed. -/
theorem seasonally_boundary_not_disjoint :
    LeaderboardPeriod.are_datetimes_disjoint .Seasonally
      ⟨⟨2025, .March, 19⟩, 23, 59, 0⟩ ⟨⟨2025, .March, 20⟩, 0, 1, 0⟩ = false := by
  decide

/-- C2 (amended): the `Seasonally` bucket check is month-granular: both
2025-03-19 23:59 and 2025-03-20 00:01 map to `Spring` via
`Season::of_northern` of their month (March), so they are in the *same*
`Seasonally` bucket and a `fetch_top(Seasonally, …)` whose metadata was
last updated at the earlier instant does not reconstruct when the view key
is present.  The day-precise `Season::get_season` would put the two dates
in Winter and Spring respectively, but it is not consulted by the
disjointness check. -/
theorem seasonally_bucket_month_granular :
    Season.of_northern .March = .Spring ∧
    LeaderboardPeriod.are_datetimes_disjoint .Seasonally
      ⟨⟨2025, .March, 19⟩, 23, 59, 0⟩ ⟨⟨2025, .March, 20⟩, 0, 1, 0⟩ = false ∧
    Season.get_season ⟨2025, .March, 19⟩ = .Winter ∧
    Season.get_season ⟨2025, .March, 20⟩ = .Spring ∧
    cache_needs_updating .Seasonally (some (some ⟨⟨2025, .March, 19⟩, 23, 59, 0⟩))
      ⟨⟨2025, .March, 20⟩, 0, 1, 0⟩ (some true) = false := by
  refine ⟨rfl, by decide, by decide, by decide, by decide⟩

/-- The spec's words for the Monthly full range:
"Monthly: `[firstOfMonth@midnight, +1 month)`", i.e. the start is the
first day of the month at time 00:00:00 and the end is one month after
that start.  Stated from the spec, for comparison with the source's
`LeaderboardPeriod.get_full_date_range`. -/
def monthly_full_range_spec (dt : LBDateTime) : Option LBDateTime × LBDateTime :=
  let start := ({ dt with date := { dt.date with day := 1 } } : LBDateTime).withMinTime
  (some start, start.addOneMonth)

/-- C3: at `t = 2025-01-15 13:45:00` (UTC-4) the source's
`get_full_date_range(Monthly, t)` returns
`[2025-01-01 13:45:00, 2025-02-15 13:45:00)` — `with_day0(0)` changes only
the day of month and keeps the time of day, and the upper bound is
`t + 1 month`, not the start of the next month — which differs from the
claimed `[2025-01-01 00:00:00, 2025-02-01 00:00:00)`.  Every other arm of
the same `match` and the sibling `get_date_range_with_now_as_upperbound`
truncate to midnight, so the missing `with_time(NaiveTime::MIN)` is a slip
in the source. -/
theorem monthly_full_range_deviates :
    LeaderboardPeriod.get_full_date_range .Monthly ⟨⟨2025, .January, 15⟩, 13, 45, 0⟩ =
      (some ⟨⟨2025, .January, 1⟩, 13, 45, 0⟩, ⟨⟨2025, .February, 15⟩, 13, 45, 0⟩) ∧
    monthly_full_range_spec ⟨⟨2025, .January, 15⟩, 13, 45, 0⟩ =
      (some ⟨⟨2025, .January, 1⟩, 0, 0, 0⟩, ⟨⟨2025, .February, 1⟩, 0, 0, 0⟩) ∧
    LeaderboardPeriod.get_full_date_range .Monthly ⟨⟨2025, .January, 15⟩, 13, 45, 0⟩ ≠
      monthly_full_range_spec ⟨⟨2025, .January, 15⟩, 13, 45, 0⟩ := by
  refine ⟨by decide, by decide, by decide⟩

/-- Rust `str::parse::<u32>()` on a character sequence: an optional leading
`+`, then at least one ASCII digit, with the value fitting in a `u32`;
anything else is a parse error (`None`). -/
def parseU32Chars (cs : List Char) : Option Nat :=
  let digits := match cs with
    | '+' :: rest => rest
    | _ => cs
  if digits = [] then none
  else if digits.all (fun c => c.isDigit) then
    let v := digits.foldl (fun a c => a * 10 + (c.toNat - 48)) 0
    if v < 2 ^ 32 then some v else none
  else none

/-- Rust `String::parse::<u32>()`. -/
def parseU32 (s : String) : Option Nat :=
  parseU32Chars s.data

/-- The observable outcome of running a code path that may panic. -/
inductive CallOutcome (α : Type) where
  | panicked
  | ret (value : α)
deriving DecidableEq

/-- `LeaderboardV2::query_standing_cached` (leaderboard_new.rs lines
206-213).  `submit_ok` is whether `cache.submit` obtains a connection (its
`Result` is collapsed with `.ok()`); `zscore_reply` is the raw `ZSCORE`
reply for `(view key, member)` — `none` when the key or member is missing
(Redis returns nil, which fails the `String` conversion and lands in the
`Err(_) => 0u32` arm).  A present reply is parsed with
`res.parse::<u32>().unwrap()`, which panics on a parse failure. -/
def query_standing_cached (submit_ok : Bool) (zscore_reply : Option String) :
    CallOutcome (Option Nat) :=
  if submit_ok then
    match zscore_reply with
    | some res =>
        match parseU32 res with
        | some v => .ret (some v)
        | none => .panicked
    | none => .ret (some 0)
  else .ret none

/-- C5 counterexample: with a healthy connection and a missing key or
member, `query_standing_cached` returns `Some 0`, not `None` as claimed;
and a stored score that fails to parse as `u32` makes it panic rather than
return `None`. -/
theorem query_standing_cached_not_none :
    query_standing_cached true none = .ret (some 0) ∧
    (CallOutcome.ret (some 0) : CallOutcome (Option Nat)) ≠ .ret none ∧
    query_standing_cached true (some "nan") = .panicked := by
  refine ⟨rfl, by decide, by decide⟩

/-- C5 (amended): `query_standing_cached` is a pure cache read (no
reconstruction, no write) whose result is: `None` exactly when the
`cache.submit` call itself fails; `Some 0` when the key or member is
missing (the nil reply falls into the `Err(_) => 0` arm); `Some v` when
the stored score string parses as the `u32` `v`; and a panic when a stored
score string fails to parse. -/
theorem query_standing_cached_cases (reply : Option String) :
    query_standing_cached false reply = .ret none ∧
    query_standing_cached true none = .ret (some 0) ∧
    (∀ s v, parseU32 s = some v → query_standing_cached true (some s) = .ret (some v)) ∧
    (∀ s, parseU32 s = none → query_standing_cached true (some s) = .panicked) := by
  refine ⟨rfl, rfl, fun s v h => ?_, fun s h => ?_⟩
  · simp [query_standing_cached, h]
  · simp [query_standing_cached, h]

/-- C5 witness: `query_standing_cached_cases` applied at concrete replies. -/
theorem query_standing_cached_cases_witness :
    (parseU32 "42" = some 42 ∧ parseU32 "nil" = none) ∧
    (query_standing_cached true (some "42") = .ret (some 42) ∧
     query_standing_cached true (some "nil") = .panicked) :=
  ⟨⟨by decide, by decide⟩,
   ⟨(query_standing_cached_cases none).2.2.1 "42" 42 (by decide),
    (query_standing_cached_cases none).2.2.2 "nil" (by decide)⟩⟩

/-- `LeaderboardLine` (`mod.rs`); the `id` and `name` strings are modelled
as character lists so the `/`-splitting of the member string can be
reasoned about character by character. -/
structure LeaderboardLine where
  id : List Char
  name : List Char
  score : Nat
deriving DecidableEq

/-- Rust `str::split("/")` over the characters of a member string: the
list of `/`-separated segments (an empty input yields one empty segment,
exactly like `"".split("/")`). -/
def splitSlash : List Char → List (List Char)
  | [] => [[]]
  | c :: cs =>
      if c = '/' then [] :: splitSlash cs
      else
        match splitSlash cs with
        | s :: ss => (c :: s) :: ss
        | [] => [[c]]

/-- The per-pair body of the loop in
`LeaderboardV2::strings_as_leaderboard_entries` (leaderboard_new.rs lines
257-267): parse the score with `parse::<u32>().unwrap_or(0)`, take the
first two `split("/")` segments as `id` and `name`
(`unwrap_helper::continue_default!` skips the pair when a segment is
missing). -/
def pairsToEntries : List (List Char) → List LeaderboardLine
  | id_name :: score_raw :: rest =>
      let score := (parseU32Chars score_raw).getD 0
      (match splitSlash id_name with
       | id :: name :: _ => [⟨id, name, score⟩]
       | _ => []) ++ pairsToEntries rest
  | _ => []

/-- `LeaderboardV2::strings_as_leaderboard_entries`: the flat
`[member, score, member, score, …]` reply is rejected when it has length
at most 1 or odd length, and is otherwise consumed two elements at a
time. -/
def strings_as_leaderboard_entries (raw : List (List Char)) : List LeaderboardLine :=
  if raw.length ≤ 1 ∨ raw.length % 2 = 1 then []
  else pairsToEntries raw

/-- `splitSlash` never produces an empty segment list. -/
theorem splitSlash_ne_nil (cs : List Char) : splitSlash cs ≠ [] := by
  induction cs with
  | nil => simp [splitSlash]
  | cons c cs ih =>
      simp only [splitSlash]
      by_cases hc : c = '/'
      · simp [hc]
      · simp only [hc, if_false]
        cases h : splitSlash cs with
        | nil => exact absurd h ih
        | cons s ss => simp

/-- A member with no `/` is a single segment. -/
theorem splitSlash_no_slash (m : List Char) (hm : '/' ∉ m) : splitSlash m = [m] := by
  induction m with
  | nil => rfl
  | cons c cs ih =>
      simp only [List.mem_cons, not_or] at hm
      have hc : ¬ c = '/' := fun h => hm.1 (by simp [h])
      simp only [splitSlash, hc, if_false]
      rw [ih hm.2]

/-- Splitting at the first `/`: the segment list of `a ++ '/' :: b` with
`/` not in `a` is `a` followed by the segments of `b`. -/
theorem splitSlash_append (a b : List Char) (ha : '/' ∉ a) :
    splitSlash (a ++ '/' :: b) = a :: splitSlash b := by
  induction a with
  | nil => simp [splitSlash]
  | cons c cs ih =>
      simp only [List.mem_cons, not_or] at ha
      have hc : ¬ c = '/' := fun h => ha.1 (by simp [h])
      simp only [List.cons_append, splitSlash, hc, if_false, List.append_eq]
      rw [ih ha.2]

/-- The first segment of `splitSlash b` is the prefix of `b` before its
first `/`. -/
theorem splitSlash_head (b : List Char) :
    ∃ rest, splitSlash b = b.takeWhile (fun c => c ≠ '/') :: rest := by
  induction b with
  | nil => exact ⟨[], rfl⟩
  | cons c cs ih =>
      by_cases hc : c = '/'
      · refine ⟨splitSlash cs, ?_⟩
        subst hc
        simp [splitSlash, List.takeWhile]
      · obtain ⟨rest, hrest⟩ := ih
        refine ⟨rest, ?_⟩
        simp only [splitSlash, hc, if_false, hrest]
        have : (c :: cs).takeWhile (fun x => x ≠ '/') = c :: cs.takeWhile (fun x => x ≠ '/') := by
          simp [List.takeWhile, hc]
        rw [this]

/-- C9 counterexample: for the member `abc/def/ghi` the produced line has
`name = "def"` (the segment between the first and second `/`), not the
claimed entire remainder `"def/ghi"` after the first `/`. -/
theorem strings_as_leaderboard_entries_second_segment :
    strings_as_leaderboard_entries ["abc/def/ghi".data, "5".data] =
      [⟨"abc".data, "def".data, 5⟩] ∧
    strings_as_leaderboard_entries ["abc/def/ghi".data, "5".data] ≠
      [⟨"abc".data, "def/ghi".data, 5⟩] := by
  refine ⟨by decide, by decide⟩

/-- C9 (amended): parsing a `(member, score)` pair splits the member on
*every* `/` and keeps the first two segments: `id` is the text before the
first `/` and `name` is the text between the first and the second `/`
(not the entire remainder); members containing no `/` are skipped. -/
theorem strings_as_leaderboard_entries_split (a b s : List Char) (ha : '/' ∉ a) :
    strings_as_leaderboard_entries [a ++ '/' :: b, s] =
      [⟨a, b.takeWhile (fun c => c ≠ '/'), (parseU32Chars s).getD 0⟩] ∧
    (∀ m s', '/' ∉ m → strings_as_leaderboard_entries [m, s'] = []) := by
  constructor
  · obtain ⟨rest, hrest⟩ := splitSlash_head b
    simp only [strings_as_leaderboard_entries, List.length_cons, List.length_nil]
    norm_num
    simp only [pairsToEntries, splitSlash_append a b ha, hrest, List.append_nil]
    simp [ne_eq, decide_not]
  · intro m s' hm
    simp only [strings_as_leaderboard_entries, List.length_cons, List.length_nil]
    norm_num
    simp [pairsToEntries, splitSlash_no_slash m hm]

/-- C9 witness: `strings_as_leaderboard_entries_split` applied to the
member `abc/def/ghi`. -/
theorem strings_as_leaderboard_entries_split_witness :
    ('/' ∉ "abc".data) ∧
    (strings_as_leaderboard_entries ["abc".data ++ '/' :: "def/ghi".data, "5".data] =
       [⟨"abc".data, "def/ghi".data.takeWhile (fun c => c ≠ '/'),
         (parseU32Chars "5".data).getD 0⟩] ∧
     (∀ m s', '/' ∉ m → strings_as_leaderboard_entries [m, s'] = [])) :=
  ⟨by decide, strings_as_leaderboard_entries_split "abc".data "def/ghi".data "5".data (by decide)⟩

/-- Rust `u32` subtraction under wrap-around (release) semantics, for
in-range operands. -/
def u32_wrapping_sub (a b : Nat) : Nat :=
  (a + 2 ^ 32 - b) % 2 ^ 32

/-- Rust `u32` subtraction under checked (debug) semantics: `none` is a
panic. -/
def u32_checked_sub (a b : Nat) : Option Nat :=
  if b ≤ a then some (a - b) else none

/-- Redis `ZRANGE key start stop REV`: the elements of the (descending)
ranking with indices `start` to `stop` inclusive. -/
def zrange_take (start stop : Nat) (l : List (List Char)) : List (List Char) :=
  (l.drop start).take (stop + 1 - start)

/-- C10: `fetch_top` computes the upper range index as `limit - 1` on
`u32`; at `limit = 0` this underflows — a panic under checked arithmetic,
and `2 ^ 32 - 1` under wrap-around semantics — so the issued
`ZRANGE view_id 0 (limit - 1) REV` covers the entire sorted set (any set
of at most `2 ^ 32` members) instead of zero entries. -/
theorem fetch_top_limit_zero_underflows (l : List (List Char))
    (hl : l.length ≤ 2 ^ 32) :
    u32_checked_sub 0 1 = none ∧
    u32_wrapping_sub 0 1 = 2 ^ 32 - 1 ∧
    zrange_take 0 (u32_wrapping_sub 0 1) l = l := by
  refine ⟨by decide, by decide, ?_⟩
  have h : u32_wrapping_sub 0 1 + 1 - 0 = 2 ^ 32 := by decide
  simp only [zrange_take, List.drop_zero, h]
  exact List.take_of_length_le (by omega)

/-- C10 witness: `fetch_top_limit_zero_underflows` on a two-member set. -/
theorem fetch_top_limit_zero_underflows_witness :
    (["a/A".data, "b/B".data].length ≤ 2 ^ 32) ∧
    (u32_checked_sub 0 1 = none ∧
     u32_wrapping_sub 0 1 = 2 ^ 32 - 1 ∧
     zrange_take 0 (u32_wrapping_sub 0 1) ["a/A".data, "b/B".data] =
       ["a/A".data, "b/B".data]) :=
  ⟨by decide, fetch_top_limit_zero_underflows ["a/A".data, "b/B".data] (by decide)⟩

/-- Lookup in the standings accumulator (`HashMap::get` keyed by player
id). -/
def standingsGet (standings : List (String × Nat)) (player : String) : Option Nat :=
  (standings.find? (fun kv => decide (kv.1 = player))).map Prod.snd

/-- Insert/replace in the standings accumulator (`HashMap::insert`). -/
def standingsInsert (standings : List (String × Nat)) (player : String) (v : Nat) :
    List (String × Nat) :=
  if (standings.find? (fun kv => decide (kv.1 = player))).isSome then
    standings.map (fun kv => if kv.1 = player then (player, v) else kv)
  else standings ++ [(player, v)]

/-- A `LeaderboardEntry` document of the `lb_entries` collection
(`database/models/leaderboard_entry.rs`): player id, score type, timestamp
in epoch milliseconds, and the `u32` value. -/
structure LBEntry where
  player_id : String
  score_type : ScoreType
  timestamp : Nat
  value : Nat
deriving DecidableEq

/-- The standings fold of the reconstruction branch of
`LeaderboardV2::fetch_top` (leaderboard_new.rs lines 330-368): stream the
log entries of the period's range; a player's first entry seeds the map
with `entry.value`, later entries merge with
`ScoreTypeAggregation::compare`. -/
def construct_standings (agg : ScoreTypeAggregation) (entries : List LBEntry) :
    List (String × Nat) :=
  entries.foldl
    (fun standings entry =>
      let new_value :=
        match standingsGet standings entry.player_id with
        | none => entry.value
        | some standing => agg.compare standing entry.value
      standingsInsert standings entry.player_id new_value)
    []

/-- The cache effect of one reconstruction of a view
(leaderboard_new.rs lines 313-376): `del_key` the view, then `ZADD` every
`(player, value)` of the standings fold.  The view is modelled as the
member-to-score map of the sorted set under the view key. -/
def reconstruct_view (agg : ScoreTypeAggregation) (entries : List LBEntry)
    (view : String → Option Nat) : String → Option Nat :=
  let cleared : String → Option Nat := fun _ => none
  let standings := construct_standings agg entries
  fun member =>
    match standingsGet standings member with
    | some v => some v
    | none => cleared member

/-- C8: reconstruction is a fixed point — running the reconstruction step
twice back-to-back over the same unchanged log yields exactly the cache
contents of the first run (the standings fold reads only the log, and the
view key is deleted before repopulation, so the second run reproduces the
first). -/
theorem reconstruct_view_fixed_point (agg : ScoreTypeAggregation)
    (entries : List LBEntry) (view : String → Option Nat) :
    reconstruct_view agg entries (reconstruct_view agg entries view) =
      reconstruct_view agg entries view := by
  funext member
  simp only [reconstruct_view]

/-- The fixed UTC-4 offset (`FixedOffset::west(4 * 3600)`) in
milliseconds. -/
def OFFSET_MS : Nat := 4 * 3600 * 1000

/-- One day in milliseconds. -/
def DAY_MS : Nat := 86400000

/-- Epoch millisecond of local (UTC-4) midnight of the local day
containing epoch millisecond `t` — the millisecond rendering of
`get_lb_datetime().with_time(NaiveTime::MIN)` used as the lower bound of
the Daily delete range (meaningful for `t ≥ OFFSET_MS`). -/
def dayStartMs (t : Nat) : Nat :=
  (t - OFFSET_MS) / DAY_MS * DAY_MS + OFFSET_MS

/-- The mutable state one `LeaderboardV2` engine acts on: the `lb_entries`
log collection, the cached sorted sets (per period, member to score — the
scores the engine itself writes are numerals, so they are modelled as the
parsed `Nat` directly), and the in-memory `lb_metadata` map (the stored
value is the `last_updated` field; the lock carries no data). -/
structure EngineState where
  log : List LBEntry
  cache : LeaderboardPeriod → String → Option Nat
  lb_metadata : LeaderboardPeriod → Option (Option Nat)

/-- The empty boot state: no log entries, no cached views, no metadata. -/
def EngineState.empty : EngineState :=
  { log := [], cache := fun _ _ => none, lb_metadata := fun _ => none }

/-- The delete filter of `process_update`'s log update
(`delete_many(get_query(Some(player_id), Daily range up to now))`):
matches entries of this player and score type whose timestamp lies in
`[start-of-day, now)`. -/
def in_daily_delete_range (player_id : String) (score_type : ScoreType)
    (now : Nat) (e : LBEntry) : Bool :=
  decide (e.player_id = player_id ∧ e.score_type = score_type ∧
    dayStartMs now ≤ e.timestamp ∧ e.timestamp < now)

/-- `LeaderboardV2::process_update` (leaderboard_new.rs lines 71-190) for
the engine of `score_type`, run to completion with no interleaving.  `now`
is the current epoch millisecond; the source reads the clock at completion
time (entry timestamp) and again when building the delete range (an equal
or later instant) — the model takes both reads equal, the weakest delete
bound.  Standing queries go through the cache with `unwrap_or(0)`
(a missing member reads as 0, see `query_standing_cached`). -/
def process_update (score_type : ScoreType) (st : EngineState)
    (player_id : String) (value : Nat) (now : Nat) : EngineState :=
  let agg := score_type.get_aggregation_type
  if agg.is_delta_useless value then st
  else
    let daily_standing := (st.cache .Daily player_id).getD 0
    let requires_update : Bool :=
      match agg with
      | .Sum => true
      | .Max => decide (daily_standing < value)
    if requires_update then
      let daily_new_value := agg.compare daily_standing value
      { log :=
          st.log.filter (fun e => !(in_daily_delete_range player_id score_type now e)) ++
            [⟨player_id, score_type, now, daily_new_value⟩],
        cache := fun period member =>
          if member = player_id then
            some (if period = .Daily then daily_new_value
                  else agg.compare ((st.cache period player_id).getD 0) value)
          else st.cache period member,
        lb_metadata := fun period =>
          match st.lb_metadata period with
          | some v => some v
          | none => some none }
    else st

/-- A sequence of sequential `process_update` calls for one player;
each event is a `(delta, now)` pair. -/
def process_updates (score_type : ScoreType) (player_id : String)
    (st : EngineState) (events : List (Nat × Nat)) : EngineState :=
  events.foldl (fun s ev => process_update score_type s player_id ev.1 ev.2) st

/-- A demonstration state for the frame witness: a daily standing of 5 for
player `p1` and nothing else. -/
def demoState : EngineState :=
  { log := [],
    cache := fun period member =>
      if period = .Daily ∧ member = "p1" then some 5 else none,
    lb_metadata := fun _ => none }

/-- A zero delta is dropped by the `is_delta_useless` early return; the
state is untouched. -/
theorem process_update_zero_delta (st : EngineState) (score_type : ScoreType)
    (player_id : String) (now : Nat) :
    process_update score_type st player_id 0 now = st := by
  simp [process_update, ScoreTypeAggregation.is_delta_useless]

/-- Under `Max` aggregation, a delta that does not exceed the current
daily standing takes the `!requires_update` early return; the state is
untouched. -/
theorem process_update_max_not_outperformed (st : EngineState) (score_type : ScoreType)
    (player_id : String) (now : Nat) (value : Nat)
    (hagg : score_type.get_aggregation_type = .Max)
    (hle : value ≤ (st.cache .Daily player_id).getD 0) :
    process_update score_type st player_id value now = st := by
  by_cases hv : value = 0
  · simp [hv, process_update, ScoreTypeAggregation.is_delta_useless]
  · have hnotlt : ¬ (st.cache .Daily player_id).getD 0 < value := not_lt.mpr hle
    simp [process_update, ScoreTypeAggregation.is_delta_useless, hv, hagg, hnotlt]

/-- C6: `process_update` has no observable effect — the log, every cached
view, and the metadata map are all left untouched — when (1) the delta is
0 (any aggregation), and (2) under `Max` aggregation when the delta does
not exceed the current daily standing (`requires_update` is false). -/
theorem process_update_frame (st : EngineState) (score_type : ScoreType)
    (player_id : String) (now : Nat) :
    process_update score_type st player_id 0 now = st ∧
    (∀ value, score_type.get_aggregation_type = .Max →
      value ≤ (st.cache .Daily player_id).getD 0 →
      process_update score_type st player_id value now = st) :=
  ⟨process_update_zero_delta st score_type player_id now,
   fun value hagg hle =>
     process_update_max_not_outperformed st score_type player_id now value hagg hle⟩

/-- C6 witness: `process_update_frame` at the concrete state `demoState`
(daily standing 5 for `p1`): a zero delta for a `Sum` engine and a
non-improving delta 3 for the `Max` engine both leave the state
unchanged. -/
theorem process_update_frame_witness :
    (ScoreType.HighestKillstreak.get_aggregation_type = .Max ∧
     3 ≤ ((demoState.cache .Daily "p1").getD 0)) ∧
    (process_update .Kills demoState "p1" 0 999 = demoState ∧
     process_update .HighestKillstreak demoState "p1" 3 999 = demoState) :=
  ⟨⟨by decide, by decide⟩,
   ⟨(process_update_frame demoState .Kills "p1" 999).1,
    (process_update_frame demoState .HighestKillstreak "p1" 999).2 3 (by decide) (by decide)⟩⟩

/-- Whether a delta sequence contains any non-zero (i.e. effective)
delta. -/
def hasEffectiveDelta (deltas : List Nat) : Bool :=
  deltas.any (fun d => decide (d ≠ 0))

/-- The claim's merged value of a delta sequence: for `Sum`, the
`merge`-fold of all non-zero deltas; for `Max`, the maximum of the
deltas. -/
def mergedValue (agg : ScoreTypeAggregation) (deltas : List Nat) : Nat :=
  match agg with
  | .Sum => (deltas.filter (fun d => decide (d ≠ 0))).foldl (ScoreTypeAggregation.compare .Sum) 0
  | .Max => deltas.foldl Nat.max 0

/-- Local midnight is not after the instant itself. -/
theorem dayStartMs_le (t : Nat) (h : OFFSET_MS ≤ t) : dayStartMs t ≤ t := by
  have h1 : (t - OFFSET_MS) / DAY_MS * DAY_MS ≤ t - OFFSET_MS :=
    Nat.div_mul_le_self _ _
  simp only [dayStartMs]
  omega

/-- Appending a delta toggles effectiveness by whether it is non-zero. -/
theorem hasEffectiveDelta_append (deltas : List Nat) (d : Nat) :
    hasEffectiveDelta (deltas ++ [d]) = (hasEffectiveDelta deltas || decide (d ≠ 0)) := by
  simp [hasEffectiveDelta]

/-- A zero delta leaves the merged value unchanged. -/
theorem mergedValue_append_zero (agg : ScoreTypeAggregation) (deltas : List Nat) :
    mergedValue agg (deltas ++ [0]) = mergedValue agg deltas := by
  cases agg with
  | Sum => simp [mergedValue]
  | Max => simp [mergedValue]

/-- For `Sum`, appending a non-zero delta merges it into the running
value. -/
theorem mergedValue_append_sum (deltas : List Nat) (d : Nat) (hd : d ≠ 0) :
    mergedValue .Sum (deltas ++ [d]) =
      ScoreTypeAggregation.compare .Sum (mergedValue .Sum deltas) d := by
  simp [mergedValue, List.filter_append, hd]

/-- For `Max`, appending a delta takes the maximum with the running
value. -/
theorem mergedValue_append_max (deltas : List Nat) (d : Nat) :
    mergedValue .Max (deltas ++ [d]) = Nat.max (mergedValue .Max deltas) d := by
  simp [mergedValue]

/-- The fold of `Nat.max` over an all-zero list is zero. -/
theorem foldl_max_all_zero (ds : List Nat) (h : ∀ d ∈ ds, d = 0) :
    ds.foldl Nat.max 0 = 0 := by
  induction ds with
  | nil => rfl
  | cons d ds ih =>
      have hd := h d (by simp)
      subst hd
      simpa using ih (fun x hx => h x (by simp [hx]))

/-- With no effective delta the merged value is zero. -/
theorem mergedValue_zero_of_not_eff (agg : ScoreTypeAggregation) (deltas : List Nat)
    (h : hasEffectiveDelta deltas = false) : mergedValue agg deltas = 0 := by
  have hall : ∀ d ∈ deltas, d = 0 := by
    intro d hd
    by_contra hne
    have htrue : hasEffectiveDelta deltas = true := by
      simp only [hasEffectiveDelta, List.any_eq_true]
      exact ⟨d, hd, by simpa using hne⟩
    simp [htrue] at h
  cases agg with
  | Sum =>
      have hfil : deltas.filter (fun d => decide (d ≠ 0)) = [] := by
        rw [List.filter_eq_nil_iff]
        intro a ha
        simpa using hall a ha
      simp only [mergedValue]
      rw [hfil]
      rfl
  | Max => simpa [mergedValue] using foldl_max_all_zero deltas hall

/-- The induction invariant for C1: after sequentially processing a delta
sequence for `player_id` (all within the local day whose midnight is `D`,
last call at or before `tmax`) from the empty state, either no delta was
effective — the log is empty and the player has no Daily cache entry — or
the log holds exactly one entry for the player carrying the merged value,
and the Daily cache standing equals that merged value. -/
def daily_inv (score_type : ScoreType) (player_id : String) (D : Nat)
    (deltas : List Nat) (tmax : Nat) (st : EngineState) : Prop :=
  if hasEffectiveDelta deltas then
    (∃ t, t ≤ tmax ∧ OFFSET_MS ≤ t ∧ dayStartMs t = D ∧
      st.log = [⟨player_id, score_type, t,
        mergedValue score_type.get_aggregation_type deltas⟩]) ∧
    st.cache .Daily player_id =
      some (mergedValue score_type.get_aggregation_type deltas)
  else st.log = [] ∧ st.cache .Daily player_id = none

/-- The invariant is preserved under rewriting the delta sequence to one
with the same effectiveness and merged value, and weakening the time
bound. -/
theorem daily_inv_congr (score_type : ScoreType) (player_id : String) (D : Nat)
    {del1 del2 : List Nat} {tmax1 tmax2 : Nat} {st : EngineState}
    (heq : hasEffectiveDelta del1 = hasEffectiveDelta del2)
    (hmv : mergedValue score_type.get_aggregation_type del1 =
      mergedValue score_type.get_aggregation_type del2)
    (hle : tmax1 ≤ tmax2)
    (h : daily_inv score_type player_id D del1 tmax1 st) :
    daily_inv score_type player_id D del2 tmax2 st := by
  unfold daily_inv at h ⊢
  rw [← heq, ← hmv]
  by_cases hc : hasEffectiveDelta del1 = true
  · rw [if_pos hc] at h ⊢
    obtain ⟨⟨t', h1, h2, h3, h4⟩, h5⟩ := h
    exact ⟨⟨t', le_trans h1 hle, h2, h3, h4⟩, h5⟩
  · rw [if_neg hc] at h ⊢
    exact h

/-- One step of the C1 induction: a further sequential `process_update`
call, strictly later within the same local day, re-establishes the
invariant with the new delta appended. -/
theorem daily_inv_step (score_type : ScoreType) (player_id : String) (D : Nat)
    (deltas : List Nat) (tmax : Nat) (st : EngineState) (d t : Nat)
    (hInv : daily_inv score_type player_id D deltas tmax st)
    (ht : tmax < t) (hD : dayStartMs t = D) (hO : OFFSET_MS ≤ t) :
    daily_inv score_type player_id D (deltas ++ [d]) t
      (process_update score_type st player_id d t) := by
  by_cases hd : d = 0
  · subst hd
    rw [process_update_zero_delta]
    exact daily_inv_congr score_type player_id D
      (by simp [hasEffectiveDelta_append])
      (mergedValue_append_zero _ _).symm (le_of_lt ht) hInv
  · have hdelta : ScoreTypeAggregation.is_delta_useless score_type.get_aggregation_type d = false := by
      simp [ScoreTypeAggregation.is_delta_useless, hd]
    have hstand : (st.cache .Daily player_id).getD 0 =
        mergedValue score_type.get_aggregation_type deltas := by
      by_cases heff : hasEffectiveDelta deltas = true
      · have h := hInv
        unfold daily_inv at h
        rw [if_pos heff] at h
        rw [h.2]
        rfl
      · have heff' : hasEffectiveDelta deltas = false := by
          cases hE : hasEffectiveDelta deltas
          · rfl
          · exact absurd hE heff
        have h := hInv
        unfold daily_inv at h
        rw [if_neg (by simp [heff'])] at h
        rw [h.2]
        simp [mergedValue_zero_of_not_eff _ _ heff']
    have hfilter : st.log.filter
        (fun e => !(in_daily_delete_range player_id score_type t e)) = [] := by
      by_cases heff : hasEffectiveDelta deltas = true
      · have h := hInv
        unfold daily_inv at h
        rw [if_pos heff] at h
        obtain ⟨⟨t', ht1, ht2, ht3, hlog0⟩, _⟩ := h
        have hin : in_daily_delete_range player_id score_type t
            ⟨player_id, score_type, t',
              mergedValue score_type.get_aggregation_type deltas⟩ = true := by
          simp only [in_daily_delete_range, decide_eq_true_eq]
          exact ⟨trivial, trivial, by rw [hD, ← ht3]; exact dayStartMs_le t' ht2,
            lt_of_le_of_lt ht1 ht⟩
        rw [hlog0]
        simp [hin]
      · have heff' : hasEffectiveDelta deltas = false := by
          cases hE : hasEffectiveDelta deltas
          · rfl
          · exact absurd hE heff
        have h := hInv
        unfold daily_inv at h
        rw [if_neg (by simp [heff'])] at h
        rw [h.1]
        rfl
    cases hagg : score_type.get_aggregation_type with
    | Sum =>
        rw [hagg] at hstand
        unfold daily_inv
        rw [if_pos (show hasEffectiveDelta (deltas ++ [d]) = true by
          simp [hasEffectiveDelta_append, hd])]
        constructor
        · refine ⟨t, le_refl t, hO, hD, ?_⟩
          simp [process_update, ScoreTypeAggregation.is_delta_useless, hd, hagg,
            hstand, hfilter, mergedValue_append_sum _ _ hd]
        · simp [process_update, ScoreTypeAggregation.is_delta_useless, hd, hagg,
            hstand, mergedValue_append_sum _ _ hd]
    | Max =>
        rw [hagg] at hstand
        by_cases hlt : mergedValue .Max deltas < d
        · unfold daily_inv
          rw [if_pos (show hasEffectiveDelta (deltas ++ [d]) = true by
            simp [hasEffectiveDelta_append, hd])]
          constructor
          · refine ⟨t, le_refl t, hO, hD, ?_⟩
            simp [process_update, ScoreTypeAggregation.is_delta_useless, hd, hagg,
              hstand, hfilter, hlt, mergedValue_append_max, ScoreTypeAggregation.compare]
          · simp [process_update, ScoreTypeAggregation.is_delta_useless, hd, hagg,
              hstand, hlt, mergedValue_append_max, ScoreTypeAggregation.compare]
        · have hle : d ≤ (st.cache .Daily player_id).getD 0 := by
            rw [hstand]
            omega
          rw [process_update_max_not_outperformed st score_type player_id t d hagg hle]
          have heff : hasEffectiveDelta deltas = true := by
            by_contra hne
            have heff' : hasEffectiveDelta deltas = false := by
              cases hE : hasEffectiveDelta deltas
              · rfl
              · exact absurd hE hne
            rw [mergedValue_zero_of_not_eff _ _ heff'] at hlt
            omega
          exact daily_inv_congr score_type player_id D
            (by simp [hasEffectiveDelta_append, heff])
            (by rw [hagg, mergedValue_append_max]
                exact (max_eq_left (not_lt.mp hlt)).symm)
            (le_of_lt ht) hInv

/-- Folding the C1 invariant over a sequence of sequential events with
strictly increasing timestamps, all within the local day `D`. -/
theorem daily_inv_fold (score_type : ScoreType) (player_id : String) (D : Nat)
    (events : List (Nat × Nat)) :
    ∀ (st : EngineState) (deltas : List Nat) (tmax : Nat),
    daily_inv score_type player_id D deltas tmax st →
    List.Chain (fun a b => a < b) tmax (events.map Prod.snd) →
    (∀ ev ∈ events, dayStartMs ev.2 = D ∧ OFFSET_MS ≤ ev.2) →
    ∃ tmax', daily_inv score_type player_id D (deltas ++ events.map Prod.fst) tmax'
      (process_updates score_type player_id st events) := by
  induction events with
  | nil =>
      intro st deltas tmax hInv _ _
      exact ⟨tmax, by simpa [process_updates] using hInv⟩
  | cons ev rest ih =>
      intro st deltas tmax hInv hchain hev
      simp only [List.map_cons, List.chain_cons] at hchain
      obtain ⟨h1, hchain'⟩ := hchain
      have hstep := daily_inv_step score_type player_id D deltas tmax st ev.1 ev.2
        hInv h1 (hev ev (by simp)).1 (hev ev (by simp)).2
      have hrest := ih (process_update score_type st player_id ev.1 ev.2)
        (deltas ++ [ev.1]) ev.2 hstep hchain'
        (fun e he => hev e (by simp [he]))
      simpa [process_updates, List.append_assoc] using hrest

/-- C1: starting from the empty state, after any finite sequence of
sequential `process_update(player_id, d_i)` calls (no interleaving) whose
clock reads are strictly increasing and all fall in the local (UTC-4) day
with midnight `D`, the `lb_entries` log holds at most one entry; every
entry it holds is for `(player_id, score_type, day D)`; and the logged
values are exactly `[v]` when some delta is non-zero — where `v` is the
`merge`-fold of the non-zero deltas for `Sum` aggregation and the maximum
of the deltas for `Max` aggregation — and `[]` otherwise.  (Each write
deletes the player's same-day entries in `[start-of-day, now)` and inserts
one entry carrying the merged value.) -/
theorem process_update_daily_log_invariant (score_type : ScoreType)
    (player_id : String) (D : Nat) (events : List (Nat × Nat))
    (hev : ∀ ev ∈ events, dayStartMs ev.2 = D ∧ OFFSET_MS ≤ ev.2)
    (hchain : List.Chain (fun a b => a < b) 0 (events.map Prod.snd)) :
    (process_updates score_type player_id EngineState.empty events).log.length ≤ 1 ∧
    (∀ e ∈ (process_updates score_type player_id EngineState.empty events).log,
       e.player_id = player_id ∧ e.score_type = score_type ∧
       dayStartMs e.timestamp = D) ∧
    (process_updates score_type player_id EngineState.empty events).log.map
        LBEntry.value =
      (if hasEffectiveDelta (events.map Prod.fst) then
        [mergedValue score_type.get_aggregation_type (events.map Prod.fst)]
       else []) := by
  have h0 : daily_inv score_type player_id D [] 0 EngineState.empty := by
    simp [daily_inv, hasEffectiveDelta, EngineState.empty]
  obtain ⟨tm, hfin⟩ :=
    daily_inv_fold score_type player_id D events EngineState.empty [] 0 h0 hchain hev
  rw [List.nil_append] at hfin
  unfold daily_inv at hfin
  by_cases heff : hasEffectiveDelta (events.map Prod.fst) = true
  · rw [if_pos heff] at hfin
    obtain ⟨⟨t, _, _, hDt, hlog⟩, _⟩ := hfin
    rw [hlog]
    refine ⟨by simp, ?_, by simp [heff]⟩
    intro e he
    simp only [List.mem_singleton] at he
    subst he
    exact ⟨rfl, rfl, hDt⟩
  · have heff' : hasEffectiveDelta (events.map Prod.fst) = false := by
      cases hE : hasEffectiveDelta (events.map Prod.fst)
      · rfl
      · exact absurd hE heff
    rw [if_neg (by simp [heff'])] at hfin
    rw [hfin.1]
    simp [heff']

/-- C1 witness: two sequential `Kills` updates of 3 and 4 at successive
instants of local day 0 (epoch day of the UTC-4 calendar) leave exactly
one log entry carrying the merged value 7. -/
theorem process_update_daily_log_invariant_witness :
    ((∀ ev ∈ [((3 : Nat), (14401000 : Nat)), (4, 14402000)],
        dayStartMs ev.2 = 14400000 ∧ OFFSET_MS ≤ ev.2) ∧
     List.Chain (fun a b => a < b) 0
       ([((3 : Nat), (14401000 : Nat)), (4, 14402000)].map Prod.snd)) ∧
    ((process_updates .Kills "p1" EngineState.empty
        [(3, 14401000), (4, 14402000)]).log.length ≤ 1 ∧
     (∀ e ∈ (process_updates .Kills "p1" EngineState.empty
        [(3, 14401000), (4, 14402000)]).log,
        e.player_id = "p1" ∧ e.score_type = .Kills ∧
        dayStartMs e.timestamp = 14400000) ∧
     (process_updates .Kills "p1" EngineState.empty
        [(3, 14401000), (4, 14402000)]).log.map LBEntry.value =
       (if hasEffectiveDelta ([((3 : Nat), (14401000 : Nat)), (4, 14402000)].map Prod.fst) then
         [mergedValue ScoreType.Kills.get_aggregation_type
           ([((3 : Nat), (14401000 : Nat)), (4, 14402000)].map Prod.fst)]
        else [])) :=
  ⟨⟨by decide,
    List.Chain.cons (by decide) (List.Chain.cons (by decide) List.Chain.nil)⟩,
   process_update_daily_log_invariant .Kills "p1" 14400000
     [(3, 14401000), (4, 14402000)] (by decide)
     (List.Chain.cons (by decide) (List.Chain.cons (by decide) List.Chain.nil))⟩
